import Mathlib

/-!
Verification of the incremental blob-synchronization engine of
`azure-storage-to-google-drive` (backup-service).

The engine lives in two near-duplicate Go files:
  * the refactored copy (`src/unnamed/part_008`, package `backup`), whose
    `processContainer` returns the per-container `currentFiles` map and whose
    `DownloadBlobs` records it in the saved metadata, and
  * the legacy copy `src/backup-service/internal/backup/azure.go`, whose
    `DownloadBlobs` saves a `SyncMetadata` value whose `Containers` map was
    created fresh and never populated.

Both are embedded below.  Go maps keyed by blob/container name are embedded
as association lists (`List (String × β)`) with a first-match lookup; the
theorems that depend on map lookup carry a no-duplicate-keys hypothesis,
matching the uniqueness of blob names within a container listing.
Timestamps (`time.Time`) are embedded as `Nat`; `time.Time.Equal` is `=`.
-/

namespace AzBackup

/-- One entry of a blob listing: `azblob.BlobItemInternal` restricted to the
fields the engine reads (`Name`, `Properties.LastModified`,
`Properties.ContentMD5`, `Properties.ContentLength`). -/
structure BlobItem where
  name : String
  lastModified : Nat
  contentMD5 : String
  contentLength : Option Int
deriving DecidableEq, Repr

/-- Type `BlobMetadata` from part_008 / azure.go: the persisted fingerprint of one
blob (lastModified, md5hash, size). -/
structure BlobMetadata where
  lastModified : Nat
  md5Hash : String
  size : Int
deriving DecidableEq, Repr

/-- Type `ContainerMetadata`: files map plus last-sync time of one container. -/
structure ContainerMetadata where
  files : List (String × BlobMetadata)
  lastSync : Nat
deriving DecidableEq, Repr

/-- Type `SyncMetadata`: the top-level persisted sync-state file. -/
structure SyncMetadata where
  lastSync : Nat
  containers : List (String × ContainerMetadata)
deriving DecidableEq, Repr

/-- Type `ContainerStats` from part_008 / azure.go. -/
structure ContainerStats where
  filesCount : Nat
  totalSize : Int
  downloadedFiles : Nat
  skippedFiles : Nat
deriving DecidableEq, Repr

/-- First-match lookup in an association list (the embedding of Go map
indexing; with no duplicate keys it agrees with the Go map). -/
def lookupKey {β : Type} : List (String × β) → String → Option β
  | [], _ => none
  | (k, v) :: rest, key => if k = key then some v else lookupKey rest key

@[simp] theorem lookupKey_nil {β : Type} (key : String) :
    lookupKey ([] : List (String × β)) key = none := rfl

@[simp] theorem lookupKey_cons {β : Type} (k : String) (v : β) (rest : List (String × β))
    (key : String) :
    lookupKey ((k, v) :: rest) key = if k = key then some v else lookupKey rest key := rfl

/-- The record stored in `currentFiles` for a listed blob (part_008
`processContainer`, lines 304–318: LastModified, ContentMD5 as string, and
ContentLength defaulting to zero when the store reports none). -/
def blobRecord (b : BlobItem) : BlobMetadata :=
  { lastModified := b.lastModified
    md5Hash := b.contentMD5
    size := b.contentLength.getD 0 }

/-- The per-blob classification of part_008 `processContainer` lines 320–335
(identical in azure.go lines 289–304): `needsDownload` starts `true` and is
cleared only when the key is present in the prior state, the local file
exists (`os.Stat` succeeds), and the listed `LastModified` equals the
recorded one. -/
def needsDownload (priorFiles : List (String × BlobMetadata))
    (locals : List String) (b : BlobItem) : Bool :=
  match lookupKey priorFiles b.name with
  | none => true
  | some prev =>
    if b.name ∈ locals then
      if b.lastModified = prev.lastModified then false else true
    else true

/-- The must-fetch subset of a listing: the blobs for which
`needsDownload` remains `true`. -/
def mustFetch (listing : List BlobItem) (priorFiles : List (String × BlobMetadata))
    (locals : List String) : List BlobItem :=
  listing.filter (fun b => needsDownload priorFiles locals b)

/-- Outcome of one container sub-pass (part_008 `processContainer`):
statistics, the `currentFiles` map handed back to `DownloadBlobs`, the local
files present after the download-and-cleanup phases, the files the cleanup
walk removed, and the names whose download failed (the contents of
`errChan`). -/
structure ContainerResult where
  stats : ContainerStats
  currentFiles : List (String × BlobMetadata)
  localsAfter : List String
  deleted : List String
  failed : List String
deriving Repr

/-- Predicate: `processContainer` returned a nil error iff no download error was
collected (part_008 lines 381–391). -/
def ContainerResult.ok (r : ContainerResult) : Bool := r.failed.isEmpty

/-- The `currentFiles` map built at part_008 `processContainer`
lines 304–318: one entry per listed blob, recorded before the download
decision, hence present whether or not the download succeeds. -/
def currentFilesOf (listing : List BlobItem) : List (String × BlobMetadata) :=
  listing.map (fun b => (b.name, blobRecord b))

/-- The keys of the current listing (what the cleanup walk tests membership
of `currentFiles` against). -/
def listedNames (listing : List BlobItem) : List String :=
  listing.map (fun b => b.name)

/-- Names of the must-fetch blobs whose `downloadBlob` call succeeded. -/
def downloadedNames (listing : List BlobItem) (priorFiles : List (String × BlobMetadata))
    (locals : List String) (dlOk : String → Bool) : List String :=
  ((mustFetch listing priorFiles locals).filter (fun b => dlOk b.name)).map (fun b => b.name)

/-- Names of the must-fetch blobs whose `downloadBlob` call failed — the
errors collected on `errChan` (part_008 lines 337–342, 381–385). -/
def failedDownloadNames (listing : List BlobItem) (priorFiles : List (String × BlobMetadata))
    (locals : List String) (dlOk : String → Bool) : List String :=
  ((mustFetch listing priorFiles locals).filter (fun b => !dlOk b.name)).map (fun b => b.name)

/-- Local files present when the cleanup walk starts: the files present at
pass start plus the freshly materialized downloads. -/
def localsAfterDownloads (listing : List BlobItem) (priorFiles : List (String × BlobMetadata))
    (locals : List String) (dlOk : String → Bool) : List String :=
  locals ++ (downloadedNames listing priorFiles locals dlOk).filter (fun n => ¬ n ∈ locals)

/-- Functional embedding of part_008 `AzureService.processContainer`
(lines 263–392) for an accessible container whose listing succeeded.

Inputs: the full (already paginated-out) listing, the container's prior
`ContainerMetadata`, the set of relative paths present under the container
directory before the pass, and a success oracle `dlOk` for `downloadBlob`.

The worker goroutines are independent per blob and joined by `wg.Wait()`
before the cleanup walk, so their combined effect is order-independent and
embedded directly:
  * every listed blob is counted and entered into `currentFiles`
    (lines 304–318) whether or not its download later succeeds;
  * a blob is downloaded iff `needsDownload` holds; a failed download sends
    on `errChan` (lines 337–349);
  * the cleanup walk (lines 357–379) removes exactly the local files whose
    relative path is not a key of `currentFiles`. -/
def processContainer (listing : List BlobItem) (prior : ContainerMetadata)
    (locals : List String) (dlOk : String → Bool) : ContainerResult :=
  { stats :=
      { filesCount := listing.length
        totalSize := (listing.map (fun b => b.contentLength.getD 0)).sum
        downloadedFiles := (downloadedNames listing prior.files locals dlOk).length
        skippedFiles := (listing.filter (fun b => !needsDownload prior.files locals b)).length }
    currentFiles := currentFilesOf listing
    localsAfter := (localsAfterDownloads listing prior.files locals dlOk).filter
      (fun f => f ∈ listedNames listing)
    deleted := (localsAfterDownloads listing prior.files locals dlOk).filter
      (fun f => ¬ f ∈ listedNames listing)
    failed := failedDownloadNames listing prior.files locals dlOk }

/-- The four outcomes of `loadSyncMetadata`'s interactions with the
filesystem: the metadata file is absent, `os.Open` fails, the JSON decode
fails, or the file parses to a metadata value. -/
inductive LoadInput where
  | missing
  | openFail
  | parseFail
  | parsed (m : SyncMetadata)
deriving Repr

/-- The empty `SyncMetadata` value `loadSyncMetadata` starts from
(`&SyncMetadata{Containers: make(...)}`, zero `LastSync`). -/
def emptyMetadata : SyncMetadata := { lastSync := 0, containers := [] }

/-- Embedding of `AzureService.loadSyncMetadata` (part_008 lines 80–100,
identical in azure.go): the result is the metadata together with an error
flag.  A missing file yields the empty value and no error; an open or
decode failure yields the pre-initialized empty value together with an
error; otherwise the decoded file is returned. -/
def loadSyncMetadata : LoadInput → SyncMetadata × Bool
  | .missing => (emptyMetadata, false)
  | .openFail => (emptyMetadata, true)
  | .parseFail => (emptyMetadata, true)
  | .parsed m => (m, false)

/-- Go map indexing `metadata.Containers[name]` yields the zero value when
the key is absent. -/
def getContainer (m : SyncMetadata) (name : String) : ContainerMetadata :=
  (lookupKey m.containers name).getD { files := [], lastSync := 0 }

/-- Environment of one container during a `DownloadBlobs` pass: its name,
whether `GetProperties`/`ListBlobsFlatSegment` succeed, the listing those
calls return, the local files present under its directory at pass start,
and the `downloadBlob` success oracle. -/
structure ContainerInput where
  name : String
  listOk : Bool
  listing : List BlobItem
  locals : List String
  dlOk : String → Bool

/-- One container's sub-pass as `DownloadBlobs` sees it: `none` when the
accessibility check or the listing failed (`processContainer` aborts before
touching the filesystem), otherwise the `ContainerResult`. -/
def containerOutcome (inp : ContainerInput) (prior : SyncMetadata) :
    Option ContainerResult :=
  if inp.listOk then
    some (processContainer inp.listing (getContainer prior inp.name) inp.locals inp.dlOk)
  else none

/-- Result of one `DownloadBlobs` pass: the stats map returned to the
caller, the in-memory `newMetadata` built during the pass, the content of
the sync-state file after the pass (`none` = absent), the per-container
local files after the pass, the per-container deleted files, and whether
`DownloadBlobs` returned a non-nil error. -/
structure PassResult where
  stats : List (String × ContainerStats)
  newMeta : SyncMetadata
  persisted : Option SyncMetadata
  localsAfter : List (String × List String)
  deleted : List (String × List String)
  passError : Bool
deriving Repr

/-- Local files of a container after a sub-pass: unchanged when the
sub-pass aborted before downloading, else as `processContainer` left them. -/
def localsOf (inp : ContainerInput) (o : Option ContainerResult) : List String :=
  match o with
  | some r => r.localsAfter
  | none => inp.locals

/-- Files deleted by a sub-pass (empty when it aborted at listing). -/
def deletedOf (o : Option ContainerResult) : List String :=
  match o with
  | some r => r.deleted
  | none => []

/-- Embedding of part_008 `AzureService.DownloadBlobs` (lines 156–260) in
"ALL containers" mode, assuming `ListContainersSegment` succeeds.

`load` drives `loadSyncMetadata`; on a load error the code substitutes a
fresh empty metadata (lines 160–167) — which the load model already
returns.  Each container goroutine that ends with a non-nil error from
`processContainer` only logs and returns (lines 203–206): no stats entry
and no `newMetadata.Containers` entry is recorded for it.  Successful
containers get their stats and a `ContainerMetadata` holding
`currentFiles` (lines 208–214).  The new metadata is then saved
(lines 239–244); a save failure is only logged, leaving the previous file
(`fileBefore`) in place.  `DownloadBlobs` returns the stats map with a nil
error in this mode. -/
def downloadBlobsAll (inps : List ContainerInput) (load : LoadInput)
    (fileBefore : Option SyncMetadata) (now : Nat) (saveOk : Bool) : PassResult :=
  let prior := (loadSyncMetadata load).1
  let outcomes := inps.map (fun inp => (inp, containerOutcome inp prior))
  let succ := outcomes.filterMap (fun p =>
    match p.2 with
    | some r => if r.ok then some (p.1, r) else none
    | none => none)
  let newMeta : SyncMetadata :=
    { lastSync := now
      containers := succ.map (fun p => (p.1.name, ({ files := p.2.currentFiles, lastSync := now } : ContainerMetadata))) }
  { stats := succ.map (fun p => (p.1.name, p.2.stats))
    newMeta := newMeta
    persisted := if saveOk then some newMeta else fileBefore
    localsAfter := outcomes.map (fun p => (p.1.name, localsOf p.1 p.2))
    deleted := outcomes.map (fun p => (p.1.name, deletedOf p.2))
    passError := false }

/-- Embedding of part_008 `DownloadBlobs` in single-container mode
(lines 221–237): a failing sub-pass returns the error before any save, so
the state file keeps its prior content; a successful one records stats and
metadata for the one container and saves. -/
def downloadBlobsSingle (inp : ContainerInput) (load : LoadInput)
    (fileBefore : Option SyncMetadata) (now : Nat) (saveOk : Bool) : PassResult :=
  let prior := (loadSyncMetadata load).1
  match containerOutcome inp prior with
  | none =>
    { stats := [], newMeta := { lastSync := now, containers := [] }
      persisted := fileBefore
      localsAfter := [(inp.name, inp.locals)], deleted := [(inp.name, [])]
      passError := true }
  | some r =>
    if r.ok then
      let newMeta : SyncMetadata :=
        { lastSync := now
          containers := [(inp.name, { files := r.currentFiles, lastSync := now })] }
      { stats := [(inp.name, r.stats)], newMeta := newMeta
        persisted := if saveOk then some newMeta else fileBefore
        localsAfter := [(inp.name, r.localsAfter)], deleted := [(inp.name, r.deleted)]
        passError := false }
    else
      { stats := [], newMeta := { lastSync := now, containers := [] }
        persisted := fileBefore
        localsAfter := [(inp.name, r.localsAfter)], deleted := [(inp.name, r.deleted)]
        passError := true }

/-- Embedding of the legacy `DownloadBlobs` of
`src/backup-service/internal/backup/azure.go` (lines 142–238) in
single-container mode.  The per-blob classification and cleanup are the
same `processContainer` logic, but after processing the function builds
`newMetadata` with a freshly made, never-populated `Containers` map
(lines 213–217) and saves that (lines 219–222). -/
def downloadBlobsSingleLegacy (inp : ContainerInput) (load : LoadInput)
    (fileBefore : Option SyncMetadata) (now : Nat) (saveOk : Bool) : PassResult :=
  let prior := (loadSyncMetadata load).1
  match containerOutcome inp prior with
  | none =>
    { stats := [], newMeta := { lastSync := now, containers := [] }
      persisted := fileBefore
      localsAfter := [(inp.name, inp.locals)], deleted := [(inp.name, [])]
      passError := true }
  | some r =>
    if r.ok then
      let newMeta : SyncMetadata := { lastSync := now, containers := [] }
      { stats := [(inp.name, r.stats)], newMeta := newMeta
        persisted := if saveOk then some newMeta else fileBefore
        localsAfter := [(inp.name, r.localsAfter)], deleted := [(inp.name, r.deleted)]
        passError := false }
    else
      { stats := [], newMeta := { lastSync := now, containers := [] }
        persisted := fileBefore
        localsAfter := [(inp.name, r.localsAfter)], deleted := [(inp.name, r.deleted)]
        passError := true }

/-! ## Crash-safe replace discipline

`downloadBlob` and `saveSyncMetadata` are straight-line sequences of
filesystem steps on a destination path and its `.tmp` sibling.  Each is
embedded as a script of steps, where each step may fail and records whether
the code removes the temp file on that failure. -/

/-- The filesystem steps appearing in the two write routines: create the
temp file, write the payload into it (JSON encode, or HTTP download plus
`io.Copy`), `File.Sync`, `File.Close` (when its error is checked), and the
final `os.Rename`. -/
inductive WriteStep where
  | create
  | payload
  | sync
  | close
  | rename
deriving DecidableEq, Repr

/-- One step of a write script together with whether the code calls
`os.Remove(tempPath)` when this step fails. -/
structure StepSpec where
  step : WriteStep
  cleanupOnFail : Bool
deriving DecidableEq, Repr

/-- State of the temp file: absent, created but not fully written, or
holding the complete payload. -/
inductive TmpFile (α : Type) where
  | incomplete
  | full (a : α)
deriving DecidableEq, Repr

/-- Run a write script over the pair (destination content, temp-file
state).  A failing step stops the script, removing the temp file exactly
when the script says the code does; `create` makes an incomplete temp,
`payload` completes it, `rename` atomically installs the payload as the
destination and removes the temp. -/
def runScript {α : Type} (content : α) (fails : WriteStep → Bool) :
    List StepSpec → Option α → Option (TmpFile α) →
    (Option α × Option (TmpFile α)) × Bool
  | [], dest, tmp => ((dest, tmp), true)
  | spec :: rest, dest, tmp =>
    if fails spec.step then
      ((dest, if spec.cleanupOnFail then none else tmp), false)
    else
      match spec.step with
      | .create => runScript content fails rest dest (some .incomplete)
      | .payload => runScript content fails rest dest (some (.full content))
      | .sync => runScript content fails rest dest tmp
      | .close => runScript content fails rest dest tmp
      | .rename => runScript content fails rest (some content) none

/-- Whether a script flushes the payload to durable storage before the
rename. -/
def scriptFlushes (s : List StepSpec) : Bool :=
  s.any (fun sp => sp.step = WriteStep.sync)

/-- Script of `AzureService.downloadBlob` (part_008 lines 393–445, identical in
azure.go lines 363–415): create temp (failure exits with no remove —
nothing was created), download + copy (failures remove the temp), sync
(failure removes the temp), close with error ignored, rename (failure
removes the temp). -/
def downloadBlobScript : List StepSpec :=
  [⟨.create, false⟩, ⟨.payload, true⟩, ⟨.sync, true⟩, ⟨.rename, true⟩]

/-- part_008 `AzureService.saveSyncMetadata` (lines 102–139): create temp,
encode, sync, close (error checked), rename; every failure after create
removes the temp. -/
def saveMetadataScript : List StepSpec :=
  [⟨.create, false⟩, ⟨.payload, true⟩, ⟨.sync, true⟩, ⟨.close, true⟩, ⟨.rename, true⟩]

/-- Legacy `AzureService.saveSyncMetadata` of
`src/backup-service/internal/backup/azure.go` (lines 102–125): create temp,
encode, close, then `return os.Rename(tempFile, s.metadataPath)` — no
`Sync` call, and nothing removes the temp file when the rename fails. -/
def saveMetadataScriptLegacy : List StepSpec :=
  [⟨.create, false⟩, ⟨.payload, true⟩, ⟨.close, true⟩, ⟨.rename, false⟩]

/-! ## Path construction from remote object keys

`processContainer` builds `targetPath := filepath.Join(containerDir,
blobInfo.Name)` and `downloadBlob` writes there with no validation of the
key.  Go's `filepath.Join` concatenates and lexically cleans the result,
resolving `..` segments.  The cleaning is embedded on slash-separated
segment lists. -/

/-- Split a character list at `/`. -/
def splitSegsAux : List Char → List Char → List (List Char)
  | [], cur => [cur.reverse]
  | c :: rest, cur =>
    if c = '/' then cur.reverse :: splitSegsAux rest []
    else splitSegsAux rest (c :: cur)

/-- The `/`-separated segments of a path string. -/
def splitPath (s : String) : List String :=
  (splitSegsAux s.toList []).map (fun cs => String.mk cs)

/-- One step of Go `path.Clean`-style lexical cleaning over a reversed
accumulator: empty and `.` segments vanish, `..` pops the previous segment
of a relative path (or is kept when there is nothing left to pop). -/
def cleanStep (acc : List String) (seg : String) : List String :=
  if seg = "" ∨ seg = "." then acc
  else if seg = ".." then
    match acc with
    | [] => [".."]
    | a :: rest => if a = ".." then seg :: acc else rest
  else seg :: acc

/-- Lexically clean a segment list (the effect of `filepath.Clean` on a
relative path, expressed on segments). -/
def cleanSegments (segs : List String) : List String :=
  (segs.foldl cleanStep []).reverse

/-- Embedding of `filepath.Join a b` on segment lists: concatenate, then clean. -/
def goJoinSegs (a b : List String) : List String :=
  cleanSegments (a ++ b)

/-- The segments of the container directory
`filepath.Join(backupRootDir, containerName)` (part_008 line 280). -/
def containerDirSegs (backupRootDir containerName : String) : List String :=
  goJoinSegs (splitPath backupRootDir) (splitPath containerName)

/-- The segments of the blob target path
`filepath.Join(containerDir, blobInfo.Name)` (part_008 lines 325, 338). -/
def blobTargetSegs (backupRootDir containerName blobName : String) : List String :=
  goJoinSegs (containerDirSegs backupRootDir containerName) (splitPath blobName)

/-- A path (as cleaned segments) lies inside a root directory iff the
root's segments are an initial run of its segments. -/
def segsWithin (root p : List String) : Bool :=
  p.take root.length = root

/-! ## Bounded concurrency

Both semaphores in the engine are buffered channels used as admission
gates: `semaphore := make(chan struct{}, s.config.Backup.MaxConcurrent)`
around each blob download (part_008 lines 276, 301–302) and
`containerSemaphore := make(chan struct{}, 5)` around each container
sub-pass in ALL mode (lines 179, 193–194).  A send (acquire) on a buffered
channel with no receiver succeeds exactly when fewer than `capacity`
tokens are outstanding; the guarded work happens strictly between the
acquire and the deferred release.  The gate is embedded as a labelled
transition system over the phases of the worker goroutines. -/

/-- Phase of one worker goroutine relative to its semaphore: before the
acquire, holding the token (its download is in flight), or finished. -/
inductive Phase where
  | waiting
  | holding
  | done
deriving DecidableEq, Repr

/-- Number of workers currently holding a token, i.e. in-flight guarded
operations. -/
def holdingCount (ph : List Phase) : Nat :=
  (ph.filter (fun p => p = Phase.holding)).length

/-- Transitions of a semaphore of capacity `cap`: worker `i` may acquire
only when fewer than `cap` tokens are held (a send on a full buffered
channel blocks), and a holding worker may release. -/
inductive SemStep (cap : Nat) : List Phase → List Phase → Prop
  | acquire (ph : List Phase) (i : Nat) (hi : ph.get? i = some Phase.waiting)
      (hcap : holdingCount ph < cap) : SemStep cap ph (ph.set i Phase.holding)
  | release (ph : List Phase) (i : Nat) (hi : ph.get? i = some Phase.holding) :
      SemStep cap ph (ph.set i Phase.done)

/-- States reachable by a semaphore of capacity `cap` guarding `n` worker
goroutines, all initially waiting. -/
def SemReachable (cap n : Nat) (ph : List Phase) : Prop :=
  Relation.ReflTransGen (SemStep cap) (List.replicate n Phase.waiting) ph

/-- The per-container download semaphore capacity:
`make(chan struct{}, s.config.Backup.MaxConcurrent)`. -/
def blobSemaphoreCapacity (maxConcurrent : Nat) : Nat := maxConcurrent

/-- The container-level semaphore capacity in ALL mode:
`containerSemaphore := make(chan struct{}, 5)`. -/
def containerSemaphoreCapacity : Nat := 5

/-- The load input corresponding to reading back a previously persisted
state file (absent file vs. well-formed JSON file). -/
def loadOf : Option SyncMetadata → LoadInput
  | none => .missing
  | some m => .parsed m

/-! ## Helper lemmas on association-list lookup -/

theorem lookupKey_filterMap_keyed_of_not_mem {α β : Type} (key : α → String)
    (f : α → Option β) (k : String) :
    ∀ l : List α, ¬ k ∈ l.map key →
      lookupKey (l.filterMap (fun x => (f x).map (fun b => (key x, b)))) k = none := by
  intro l
  induction l with
  | nil => intro _; rfl
  | cons x rest ih =>
    intro hk
    have hx : ¬ key x = k := by
      intro h; exact hk (by simp [h])
    have hrest : ¬ k ∈ rest.map key := by
      intro h; exact hk (by simp [h])
    cases hf : f x with
    | none => simpa [List.filterMap_cons, hf] using ih hrest
    | some b => simpa [List.filterMap_cons, hf, hx] using ih hrest

/-- Lookup in a keyed `filterMap` list under distinct keys recovers the
producing function. -/
theorem lookupKey_filterMap_keyed {α β : Type} (key : α → String)
    (f : α → Option β) :
    ∀ (l : List α), (l.map key).Nodup → ∀ a ∈ l,
      lookupKey (l.filterMap (fun x => (f x).map (fun b => (key x, b)))) (key a) = f a := by
  intro l
  induction l with
  | nil => intro _ a ha; exact absurd ha (List.not_mem_nil a)
  | cons x rest ih =>
    intro hnd a ha
    have hnd' : (rest.map key).Nodup := (List.nodup_cons.mp hnd).2
    have hxrest : ¬ key x ∈ rest.map key := (List.nodup_cons.mp hnd).1
    rcases List.mem_cons.mp ha with rfl | hmem
    · cases hf : f a with
      | none =>
        simpa [List.filterMap_cons, hf] using
          lookupKey_filterMap_keyed_of_not_mem key f (key a) rest hxrest
      | some b => simp [List.filterMap_cons, hf]
    · have hne : ¬ key x = key a := by
        intro h
        exact hxrest (h ▸ List.mem_map_of_mem key hmem)
      cases hf : f x with
      | none => simpa [List.filterMap_cons, hf] using ih hnd' a hmem
      | some b => simpa [List.filterMap_cons, hf, hne] using ih hnd' a hmem

/-- A plain keyed `map` is the `filterMap` of an everywhere-`some`
function. -/
theorem map_keyed_eq_filterMap {α β : Type} (key : α → String) (val : α → β)
    (l : List α) :
    l.map (fun x => (key x, val x))
      = l.filterMap (fun x => ((some (val x)).map (fun b => (key x, b)))) := by
  induction l with
  | nil => rfl
  | cons x rest ih => simp [List.filterMap_cons, ih]

/-- Lookup in a keyed `map` list under distinct keys. -/
theorem lookupKey_map_keyed {α β : Type} (key : α → String) (val : α → β)
    (l : List α) (hnd : (l.map key).Nodup) (a : α) (ha : a ∈ l) :
    lookupKey (l.map (fun x => (key x, val x))) (key a) = some (val a) := by
  rw [map_keyed_eq_filterMap]
  exact lookupKey_filterMap_keyed key (fun x => some (val x)) l hnd a ha

/-- A successful lookup in a keyed `filterMap` list comes from some member
of the underlying list. -/
theorem lookupKey_filterMap_keyed_some {α β : Type} (key : α → String)
    (f : α → Option β) (k : String) (v : β) :
    ∀ l : List α,
      lookupKey (l.filterMap (fun x => (f x).map (fun b => (key x, b)))) k = some v →
      ∃ a ∈ l, key a = k ∧ f a = some v := by
  intro l
  induction l with
  | nil => intro h; simp [lookupKey] at h
  | cons x rest ih =>
    intro h
    cases hf : f x with
    | none =>
      rw [List.filterMap_cons, hf] at h
      rcases ih h with ⟨a, ha, hk, hfa⟩
      exact ⟨a, List.mem_cons_of_mem x ha, hk, hfa⟩
    | some b =>
      simp only [List.filterMap_cons, hf, Option.map_some'] at h
      by_cases hx : key x = k
      · refine ⟨x, List.mem_cons_self x rest, hx, ?_⟩
        rw [lookupKey_cons, if_pos hx] at h
        rw [hf, ← h]
      · rw [lookupKey_cons, if_neg hx] at h
        rcases ih h with ⟨a, ha, hk, hfa⟩
        exact ⟨a, List.mem_cons_of_mem x ha, hk, hfa⟩

/-! ## C2: change-set classification -/

/-- The spec's wording of the must-fetch condition, stated independently of
the code: the key is absent from the prior container state, or its
`lastModified` differs from the recorded value, or the corresponding local
file is missing on disk. -/
def specMustFetch (priorFiles : List (String × BlobMetadata))
    (locals : List String) (b : BlobItem) : Prop :=
  lookupKey priorFiles b.name = none ∨
  (∃ prev, lookupKey priorFiles b.name = some prev ∧ b.lastModified ≠ prev.lastModified) ∨
  ¬ b.name ∈ locals

theorem needsDownload_iff_specMustFetch (priorFiles : List (String × BlobMetadata))
    (locals : List String) (b : BlobItem) :
    needsDownload priorFiles locals b = true ↔ specMustFetch priorFiles locals b := by
  unfold needsDownload specMustFetch
  cases hl : lookupKey priorFiles b.name with
  | none => simp
  | some prev =>
    by_cases hmem : b.name ∈ locals
    · by_cases heq : b.lastModified = prev.lastModified
      · simp [hmem, heq]
      · simp [hmem, heq]
    · simp [hmem]

/-- C2 — Change-set classification: in `processContainer`, a listed blob is
placed in the download (must-fetch) set iff its key is absent from the
prior container state, or its `lastModified` differs from the recorded
value, or the corresponding local file is missing on disk; a blob outside
the must-fetch set is counted in `SkippedFiles`, whose value is exactly
the number of listed blobs not satisfying the must-fetch condition. -/
theorem change_set_classification (listing : List BlobItem)
    (prior : ContainerMetadata) (locals : List String) (dlOk : String → Bool)
    (b : BlobItem) (hb : b ∈ listing) :
    (b ∈ mustFetch listing prior.files locals ↔ specMustFetch prior.files locals b)
    ∧ (processContainer listing prior locals dlOk).stats.skippedFiles
        = (listing.filter (fun x => !(needsDownload prior.files locals x))).length
    ∧ (needsDownload prior.files locals b = false ↔ ¬ specMustFetch prior.files locals b) := by
  refine ⟨?_, rfl, ?_⟩
  · rw [mustFetch, List.mem_filter]
    constructor
    · intro h
      exact (needsDownload_iff_specMustFetch prior.files locals b).mp h.2
    · intro h
      exact ⟨hb, (needsDownload_iff_specMustFetch prior.files locals b).mpr h⟩
  · rw [← needsDownload_iff_specMustFetch prior.files locals b]
    constructor
    · intro h hx; rw [h] at hx; exact Bool.false_ne_true hx
    · intro h
      cases hx : needsDownload prior.files locals b with
      | false => rfl
      | true => exact absurd hx h

theorem change_set_classification_witness :
    let b : BlobItem := ⟨"a", 3, "h", some 4⟩
    let listing : List BlobItem := [b, ⟨"b", 7, "h2", none⟩]
    let prior : ContainerMetadata := ⟨[("a", ⟨3, "h", 4⟩)], 0⟩
    b ∈ listing ∧
    ((b ∈ mustFetch listing prior.files ["a"] ↔ specMustFetch prior.files ["a"] b)
     ∧ (processContainer listing prior ["a"] (fun _ => true)).stats.skippedFiles
        = (listing.filter (fun x => !(needsDownload prior.files ["a"] x))).length
     ∧ (needsDownload prior.files ["a"] b = false ↔ ¬ specMustFetch prior.files ["a"] b)) :=
  ⟨by decide, change_set_classification _ _ ["a"] (fun _ => true) _ (by decide)⟩

/-! ## C5: stale cleanup -/

theorem downloadedNames_subset_listed (listing : List BlobItem)
    (priorFiles : List (String × BlobMetadata)) (locals : List String)
    (dlOk : String → Bool) (n : String)
    (hn : n ∈ downloadedNames listing priorFiles locals dlOk) :
    n ∈ listedNames listing := by
  unfold downloadedNames mustFetch at hn
  unfold listedNames
  rcases List.mem_map.mp hn with ⟨b, hb, rfl⟩
  exact List.mem_map_of_mem _ (List.mem_of_mem_filter (List.mem_of_mem_filter hb))

/-- C5 — Stale cleanup: a container sub-pass that completed its listing
deletes precisely the local files whose relative path is not a key of the
current remote listing; every file whose path is a listed key survives the
cleanup walk. -/
theorem stale_cleanup (listing : List BlobItem) (prior : ContainerMetadata)
    (locals : List String) (dlOk : String → Bool) (f : String) :
    f ∈ (processContainer listing prior locals dlOk).deleted ↔
      f ∈ locals ∧ ¬ f ∈ listedNames listing := by
  show f ∈ (localsAfterDownloads listing prior.files locals dlOk).filter
      (fun f => ¬ f ∈ listedNames listing) ↔ _
  rw [List.mem_filter]
  unfold localsAfterDownloads
  constructor
  · rintro ⟨hmem, hnl⟩
    have hnl' : ¬ f ∈ listedNames listing := by simpa using hnl
    rcases List.mem_append.mp hmem with h | h
    · exact ⟨h, hnl'⟩
    · exact absurd (downloadedNames_subset_listed listing prior.files locals dlOk f
        (List.mem_of_mem_filter h)) hnl'
  · rintro ⟨hmem, hnl⟩
    exact ⟨List.mem_append.mpr (Or.inl hmem), by simpa using hnl⟩

/-! ## C1: idempotence of a sync pass -/

theorem ok_iff_no_failed (listing : List BlobItem) (prior : ContainerMetadata)
    (locals : List String) (dlOk : String → Bool) :
    (processContainer listing prior locals dlOk).ok = true ↔
      failedDownloadNames listing prior.files locals dlOk = [] := by
  show (failedDownloadNames listing prior.files locals dlOk).isEmpty = true ↔ _
  cases failedDownloadNames listing prior.files locals dlOk with
  | nil => simp
  | cons x rest => simp [List.isEmpty]

/-- After a successful sub-pass, every listed blob's name is present among
the local files the pass leaves behind. -/
theorem listed_mem_localsAfter (listing : List BlobItem) (prior : ContainerMetadata)
    (locals : List String) (dlOk : String → Bool)
    (hok : (processContainer listing prior locals dlOk).ok = true)
    (b : BlobItem) (hb : b ∈ listing) :
    b.name ∈ (processContainer listing prior locals dlOk).localsAfter := by
  show b.name ∈ (localsAfterDownloads listing prior.files locals dlOk).filter
    (fun f => f ∈ listedNames listing)
  rw [List.mem_filter]
  refine ⟨?_, by
    simp only [listedNames, decide_eq_true_eq]
    exact List.mem_map_of_mem _ hb⟩
  unfold localsAfterDownloads
  rw [List.mem_append]
  by_cases hloc : b.name ∈ locals
  · exact Or.inl hloc
  · right
    rw [List.mem_filter]
    refine ⟨?_, by simpa using hloc⟩
    have hneed : needsDownload prior.files locals b = true := by
      unfold needsDownload
      cases hl : lookupKey prior.files b.name with
      | none => rfl
      | some prev => simp [hloc]
    have hdl : dlOk b.name = true := by
      by_contra hdl
      have hfail : b.name ∈ failedDownloadNames listing prior.files locals dlOk := by
        unfold failedDownloadNames
        refine List.mem_map_of_mem _ (List.mem_filter.mpr ⟨?_, ?_⟩)
        · exact List.mem_filter.mpr ⟨hb, hneed⟩
        · simp at hdl
          simp [hdl]
      rw [(ok_iff_no_failed listing prior locals dlOk).mp hok] at hfail
      exact absurd hfail (List.not_mem_nil b.name)
    unfold downloadedNames
    exact List.mem_map_of_mem _ (List.mem_filter.mpr
      ⟨List.mem_filter.mpr ⟨hb, hneed⟩, by simp [hdl]⟩)

/-- On a second pass against the state a successful pass recorded, with the
listing unchanged and the pass's local files on disk, no listed blob needs
a download. -/
theorem needsDownload_second_pass (listing : List BlobItem)
    (prior : ContainerMetadata) (locals : List String) (dlOk : String → Bool)
    (hnd : (listedNames listing).Nodup)
    (hok : (processContainer listing prior locals dlOk).ok = true)
    (b : BlobItem) (hb : b ∈ listing) :
    needsDownload (currentFilesOf listing)
      ((processContainer listing prior locals dlOk).localsAfter) b = false := by
  have hnd' : (listing.map (fun x => x.name)).Nodup := hnd
  have hlook : lookupKey (currentFilesOf listing) b.name = some (blobRecord b) := by
    unfold currentFilesOf
    exact lookupKey_map_keyed (fun x => x.name) blobRecord listing hnd' b hb
  have hloc := listed_mem_localsAfter listing prior locals dlOk hok b hb
  unfold needsDownload
  rw [hlook]
  simp [hloc, blobRecord]

/-- Running `processContainer` again on an unchanged listing, against the
`currentFiles` recorded by a previous successful run and the local files
it left behind, downloads nothing, deletes nothing, and skips every blob. -/
theorem processContainer_second_pass (listing : List BlobItem)
    (prior : ContainerMetadata) (locals : List String) (dlOk dlOk2 : String → Bool)
    (prior2 : ContainerMetadata)
    (hnd : (listedNames listing).Nodup)
    (hok : (processContainer listing prior locals dlOk).ok = true)
    (hp2 : prior2.files = currentFilesOf listing) :
    (processContainer listing prior2
        ((processContainer listing prior locals dlOk).localsAfter) dlOk2).stats.downloadedFiles = 0
    ∧ (processContainer listing prior2
        ((processContainer listing prior locals dlOk).localsAfter) dlOk2).deleted = []
    ∧ (processContainer listing prior2
        ((processContainer listing prior locals dlOk).localsAfter) dlOk2).stats.skippedFiles
        = listing.length
    ∧ (processContainer listing prior2
        ((processContainer listing prior locals dlOk).localsAfter) dlOk2).ok = true := by
  set locals2 := (processContainer listing prior locals dlOk).localsAfter with hl2
  have hnone : ∀ b ∈ listing, needsDownload prior2.files locals2 b = false := by
    intro b hb
    rw [hp2]
    exact needsDownload_second_pass listing prior locals dlOk hnd hok b hb
  have hfetch : mustFetch listing prior2.files locals2 = [] := by
    unfold mustFetch
    rw [List.filter_eq_nil_iff]
    intro b hb
    simp [hnone b hb]
  have hdln : downloadedNames listing prior2.files locals2 dlOk2 = [] := by
    unfold downloadedNames
    rw [hfetch]
    rfl
  have hfail : failedDownloadNames listing prior2.files locals2 dlOk2 = [] := by
    unfold failedDownloadNames
    rw [hfetch]
    rfl
  refine ⟨?_, ?_, ?_, ?_⟩
  · show (downloadedNames listing prior2.files locals2 dlOk2).length = 0
    rw [hdln]
    rfl
  · show (localsAfterDownloads listing prior2.files locals2 dlOk2).filter
      (fun f => ¬ f ∈ listedNames listing) = []
    unfold localsAfterDownloads
    rw [hdln]
    show (locals2 ++ []).filter (fun f => ¬ f ∈ listedNames listing) = []
    rw [List.append_nil]
    rw [hl2]
    show ((localsAfterDownloads listing prior.files locals dlOk).filter
      (fun f => f ∈ listedNames listing)).filter (fun f => ¬ f ∈ listedNames listing) = []
    rw [List.filter_filter, List.filter_eq_nil_iff]
    intro a _
    by_cases h : a ∈ listedNames listing <;> simp [h]
  · show (listing.filter (fun b => !(needsDownload prior2.files locals2 b))).length
      = listing.length
    have : listing.filter (fun b => !(needsDownload prior2.files locals2 b)) = listing := by
      rw [List.filter_eq_self]
      intro b hb
      simp [hnone b hb]
    rw [this]
  · rw [ok_iff_no_failed]
    exact hfail

/-- C1 — Idempotence of a sync pass, at the failing input
(container `videos` with blobs `a`, `b`, empty prior state, all
downloads succeeding).  The refactored engine (part_008) persists
`currentFiles`, so the second pass fetches nothing and deletes nothing;
the legacy `backup-service/internal/backup/azure.go` engine persists a
`SyncMetadata` whose containers map is empty, so its second pass
re-downloads both blobs — contradicting the repository's own documented
incremental-backup behaviour. -/
theorem idempotence_divergence_at_failing_input :
    (let L : List BlobItem := [⟨"a", 1, "h1", some 10⟩, ⟨"b", 2, "h2", some 20⟩]
     let inp1 : ContainerInput := ⟨"videos", true, L, [], fun _ => true⟩
     let p1 := downloadBlobsSingle inp1 .missing none 100 true
     let inp2 : ContainerInput :=
       ⟨"videos", true, L, (lookupKey p1.localsAfter "videos").getD [], fun _ => true⟩
     let p2 := downloadBlobsSingle inp2 (loadOf p1.persisted) p1.persisted 200 true
     p1.passError = false
     ∧ lookupKey p2.stats "videos"
         = some { filesCount := 2, totalSize := 30, downloadedFiles := 0, skippedFiles := 2 }
     ∧ lookupKey p2.deleted "videos" = some [])
    ∧
    (let L : List BlobItem := [⟨"a", 1, "h1", some 10⟩, ⟨"b", 2, "h2", some 20⟩]
     let inp1 : ContainerInput := ⟨"videos", true, L, [], fun _ => true⟩
     let p1 := downloadBlobsSingleLegacy inp1 .missing none 100 true
     let inp2 : ContainerInput :=
       ⟨"videos", true, L, (lookupKey p1.localsAfter "videos").getD [], fun _ => true⟩
     let p2 := downloadBlobsSingleLegacy inp2 (loadOf p1.persisted) p1.persisted 200 true
     p1.passError = false
     ∧ p1.persisted = some { lastSync := 100, containers := [] }
     ∧ lookupKey p2.stats "videos"
         = some { filesCount := 2, totalSize := 30, downloadedFiles := 2, skippedFiles := 0 }) := by
  decide

/-! ## Structure of `downloadBlobsAll` results -/

/-- The sub-pass result `DownloadBlobs` records stats and metadata from:
present exactly when the container was accessible, its listing succeeded
and `processContainer` returned a nil error. -/
def succOutcome (prior : SyncMetadata) (inp : ContainerInput) : Option ContainerResult :=
  match containerOutcome inp prior with
  | some r => if r.ok then some r else none
  | none => none

theorem downloadBlobsAll_containers (inps : List ContainerInput) (load : LoadInput)
    (fb : Option SyncMetadata) (now : Nat) (saveOk : Bool) :
    (downloadBlobsAll inps load fb now saveOk).newMeta.containers
      = inps.filterMap (fun inp =>
          ((succOutcome (loadSyncMetadata load).1 inp).map
            (fun r => ({ files := r.currentFiles, lastSync := now } : ContainerMetadata))).map
            (fun cm => (inp.name, cm))) := by
  show ((inps.map (fun inp => (inp, containerOutcome inp (loadSyncMetadata load).1))).filterMap
      (fun p => match p.2 with
        | some r => if r.ok then some (p.1, r) else none
        | none => none)).map
      (fun p => (p.1.name, ({ files := p.2.currentFiles, lastSync := now } : ContainerMetadata)))
    = _
  induction inps with
  | nil => rfl
  | cons x rest ih =>
    simp only [List.map_cons, List.filterMap_cons]
    cases ho : containerOutcome x (loadSyncMetadata load).1 with
    | none => simpa [succOutcome, ho] using ih
    | some r =>
      by_cases hr : r.ok
      · simpa [succOutcome, ho, hr] using ih
      · simpa [succOutcome, ho, hr] using ih

theorem downloadBlobsAll_stats (inps : List ContainerInput) (load : LoadInput)
    (fb : Option SyncMetadata) (now : Nat) (saveOk : Bool) :
    (downloadBlobsAll inps load fb now saveOk).stats
      = inps.filterMap (fun inp =>
          ((succOutcome (loadSyncMetadata load).1 inp).map (fun r => r.stats)).map
            (fun s => (inp.name, s))) := by
  show ((inps.map (fun inp => (inp, containerOutcome inp (loadSyncMetadata load).1))).filterMap
      (fun p => match p.2 with
        | some r => if r.ok then some (p.1, r) else none
        | none => none)).map (fun p => (p.1.name, p.2.stats))
    = _
  induction inps with
  | nil => rfl
  | cons x rest ih =>
    simp only [List.map_cons, List.filterMap_cons]
    cases ho : containerOutcome x (loadSyncMetadata load).1 with
    | none => simpa [succOutcome, ho] using ih
    | some r =>
      by_cases hr : r.ok
      · simpa [succOutcome, ho, hr] using ih
      · simpa [succOutcome, ho, hr] using ih

theorem downloadBlobsAll_persisted_saved (inps : List ContainerInput) (load : LoadInput)
    (fb : Option SyncMetadata) (now : Nat) :
    (downloadBlobsAll inps load fb now true).persisted
      = some (downloadBlobsAll inps load fb now true).newMeta := rfl

theorem downloadBlobsAll_passError (inps : List ContainerInput) (load : LoadInput)
    (fb : Option SyncMetadata) (now : Nat) (saveOk : Bool) :
    (downloadBlobsAll inps load fb now saveOk).passError = false := rfl

/-! ## C3: state of unfinished containers -/

/-- C3 counterexample — a container whose sub-pass failed does not keep its
prior entry in the persisted state: with prior state holding a record for
container `B`, a pass in which `B`'s listing fails and the save succeeds
persists a file whose entry for `B` is absent, not the prior entry. -/
theorem unfinished_container_state_counterexample :
    let priorB : SyncMetadata := ⟨50, [("B", ⟨[("x", ⟨1, "h", 5⟩)], 40⟩)]⟩
    let inpA : ContainerInput := ⟨"A", true, [⟨"a", 1, "", none⟩], [], fun _ => true⟩
    let inpB : ContainerInput := ⟨"B", false, [], ["x"], fun _ => true⟩
    let p := downloadBlobsAll [inpA, inpB] (.parsed priorB) (some priorB) 100 true
    lookupKey priorB.containers "B" = some ⟨[("x", ⟨1, "h", 5⟩)], 40⟩
    ∧ p.persisted.map (fun m => lookupKey m.containers "B") = some none := by
  decide

/-- C3 amended — In ALL-containers mode (part_008), when the pass's save
succeeds the persisted file is exactly the metadata rebuilt during the
pass; a container whose sub-pass did not finish (listing failure or any
download error) has no entry in it — its prior SyncRecords are dropped,
forcing a full re-fetch next pass rather than being retained — while a
container that completed successfully has its entry replaced by the
current listing's records. -/
theorem unfinished_container_state_amended (inps : List ContainerInput)
    (load : LoadInput) (fb : Option SyncMetadata) (now : Nat)
    (hnames : (inps.map (fun i => i.name)).Nodup)
    (inp : ContainerInput) (hin : inp ∈ inps) :
    ((downloadBlobsAll inps load fb now true).persisted
        = some (downloadBlobsAll inps load fb now true).newMeta)
    ∧ (¬ (inp.listOk = true ∧ (processContainer inp.listing
            (getContainer (loadSyncMetadata load).1 inp.name) inp.locals inp.dlOk).ok = true) →
        lookupKey (downloadBlobsAll inps load fb now true).newMeta.containers inp.name = none)
    ∧ ((inp.listOk = true ∧ (processContainer inp.listing
            (getContainer (loadSyncMetadata load).1 inp.name) inp.locals inp.dlOk).ok = true) →
        lookupKey (downloadBlobsAll inps load fb now true).newMeta.containers inp.name
          = some ⟨(processContainer inp.listing
                (getContainer (loadSyncMetadata load).1 inp.name) inp.locals inp.dlOk).currentFiles,
              now⟩) := by
  have hlk := lookupKey_filterMap_keyed (fun i : ContainerInput => i.name)
    (fun i => (succOutcome (loadSyncMetadata load).1 i).map
      (fun r => ({ files := r.currentFiles, lastSync := now } : ContainerMetadata)))
    inps hnames inp hin
  refine ⟨rfl, ?_, ?_⟩
  · intro hfail
    rw [downloadBlobsAll_containers, hlk]
    have hso : succOutcome (loadSyncMetadata load).1 inp = none := by
      unfold succOutcome containerOutcome
      by_cases hl : inp.listOk = true
      · have hok : ¬ (processContainer inp.listing
            (getContainer (loadSyncMetadata load).1 inp.name) inp.locals inp.dlOk).ok = true :=
          fun hk => hfail ⟨hl, hk⟩
        simp [hl, hok]
      · simp [hl]
    simp only [hso, Option.map_none']
  · rintro ⟨hl, hok⟩
    rw [downloadBlobsAll_containers, hlk]
    have hso : succOutcome (loadSyncMetadata load).1 inp
        = some (processContainer inp.listing
            (getContainer (loadSyncMetadata load).1 inp.name) inp.locals inp.dlOk) := by
      unfold succOutcome containerOutcome
      simp [hl, hok]
    simp only [hso, Option.map_some']

theorem unfinished_container_state_amended_witness :
    let priorB : SyncMetadata := ⟨50, [("B", ⟨[("x", ⟨1, "h", 5⟩)], 40⟩)]⟩
    let inpA : ContainerInput := ⟨"A", true, [⟨"a", 1, "", none⟩], [], fun _ => true⟩
    let inpB : ContainerInput := ⟨"B", false, [], ["x"], fun _ => true⟩
    lookupKey (downloadBlobsAll [inpA, inpB] (.parsed priorB)
        (some priorB) 100 true).newMeta.containers "B" = none := by
  intro priorB inpA inpB
  have h := unfinished_container_state_amended [inpA, inpB] (.parsed priorB) (some priorB) 100
    (by decide) inpB (List.mem_cons_of_mem inpA (List.mem_cons_self inpB []))
  exact h.2.1 (fun hc => Bool.false_ne_true hc.1)

/-! ## C4: reporting of container-level failures -/

/-- C4 counterexample — three containers where `B`'s listing fails: the
pass result returned to the caller carries `A`'s and `C`'s stats, no entry
at all for `B`, and a nil error — the container-level failure is dropped
from the pass result (it is only logged). -/
theorem container_failure_dropped_counterexample :
    let inpA : ContainerInput := ⟨"A", true, [⟨"a", 1, "", none⟩], [], fun _ => true⟩
    let inpB : ContainerInput := ⟨"B", false, [⟨"b", 2, "", none⟩], [], fun _ => true⟩
    let inpC : ContainerInput := ⟨"C", true, [⟨"c", 3, "", none⟩], [], fun _ => true⟩
    let p := downloadBlobsAll [inpA, inpB, inpC] .missing none 100 true
    p.passError = false
    ∧ lookupKey p.stats "B" = none
    ∧ (lookupKey p.stats "A").isSome = true
    ∧ (lookupKey p.stats "C").isSome = true := by
  decide

/-- C4 amended — In ALL-containers mode (part_008), `DownloadBlobs` always
returns a nil error (container failures are logged, not propagated): a
failed container is silently omitted from the returned stats map, while
every successful container's statistics and rebuilt state entry are
intact. -/
theorem partial_failure_aggregation_amended (inps : List ContainerInput)
    (load : LoadInput) (fb : Option SyncMetadata) (now : Nat) (saveOk : Bool)
    (hnames : (inps.map (fun i => i.name)).Nodup)
    (inp : ContainerInput) (hin : inp ∈ inps) :
    (downloadBlobsAll inps load fb now saveOk).passError = false
    ∧ (¬ (inp.listOk = true ∧ (processContainer inp.listing
            (getContainer (loadSyncMetadata load).1 inp.name) inp.locals inp.dlOk).ok = true) →
        lookupKey (downloadBlobsAll inps load fb now saveOk).stats inp.name = none)
    ∧ ((inp.listOk = true ∧ (processContainer inp.listing
            (getContainer (loadSyncMetadata load).1 inp.name) inp.locals inp.dlOk).ok = true) →
        lookupKey (downloadBlobsAll inps load fb now saveOk).stats inp.name
          = some (processContainer inp.listing
              (getContainer (loadSyncMetadata load).1 inp.name) inp.locals inp.dlOk).stats
        ∧ lookupKey (downloadBlobsAll inps load fb now saveOk).newMeta.containers inp.name
            = some ⟨(processContainer inp.listing
                (getContainer (loadSyncMetadata load).1 inp.name) inp.locals inp.dlOk).currentFiles,
                now⟩) := by
  have hlk := lookupKey_filterMap_keyed (fun i : ContainerInput => i.name)
    (fun i => (succOutcome (loadSyncMetadata load).1 i).map (fun r => r.stats))
    inps hnames inp hin
  have hlkm := lookupKey_filterMap_keyed (fun i : ContainerInput => i.name)
    (fun i => (succOutcome (loadSyncMetadata load).1 i).map
      (fun r => ({ files := r.currentFiles, lastSync := now } : ContainerMetadata)))
    inps hnames inp hin
  refine ⟨rfl, ?_, ?_⟩
  · intro hfail
    rw [downloadBlobsAll_stats, hlk]
    have hso : succOutcome (loadSyncMetadata load).1 inp = none := by
      unfold succOutcome containerOutcome
      by_cases hl : inp.listOk = true
      · have hok : ¬ (processContainer inp.listing
            (getContainer (loadSyncMetadata load).1 inp.name) inp.locals inp.dlOk).ok = true :=
          fun hk => hfail ⟨hl, hk⟩
        simp [hl, hok]
      · simp [hl]
    simp only [hso, Option.map_none']
  · rintro ⟨hl, hok⟩
    have hso : succOutcome (loadSyncMetadata load).1 inp
        = some (processContainer inp.listing
            (getContainer (loadSyncMetadata load).1 inp.name) inp.locals inp.dlOk) := by
      unfold succOutcome containerOutcome
      simp [hl, hok]
    constructor
    · rw [downloadBlobsAll_stats, hlk]
      simp only [hso, Option.map_some']
    · rw [downloadBlobsAll_containers, hlkm]
      simp only [hso, Option.map_some']

theorem partial_failure_aggregation_amended_witness :
    let inpA : ContainerInput := ⟨"A", true, [⟨"a", 1, "", none⟩], [], fun _ => true⟩
    let inpB : ContainerInput := ⟨"B", false, [⟨"b", 2, "", none⟩], [], fun _ => true⟩
    lookupKey (downloadBlobsAll [inpA, inpB] .missing none 100 true).stats "B" = none := by
  intro inpA inpB
  have h := partial_failure_aggregation_amended [inpA, inpB] .missing none 100 true
    (by decide) inpB (List.mem_cons_of_mem inpA (List.mem_cons_self inpB []))
  exact h.2.1 (fun hc => Bool.false_ne_true hc.1)

/-! ## C7: SyncRecord existence invariant -/

theorem mem_downloadedNames_of_ok (listing : List BlobItem) (prior : ContainerMetadata)
    (locals : List String) (dlOk : String → Bool)
    (hok : (processContainer listing prior locals dlOk).ok = true)
    (b : BlobItem) (hb : b ∈ listing)
    (hneed : needsDownload prior.files locals b = true) :
    b.name ∈ downloadedNames listing prior.files locals dlOk := by
  have hdl : dlOk b.name = true := by
    by_contra hdl
    have hfail : b.name ∈ failedDownloadNames listing prior.files locals dlOk := by
      unfold failedDownloadNames
      refine List.mem_map_of_mem _ (List.mem_filter.mpr ⟨?_, ?_⟩)
      · exact List.mem_filter.mpr ⟨hb, hneed⟩
      · simp at hdl
        simp [hdl]
    rw [(ok_iff_no_failed listing prior locals dlOk).mp hok] at hfail
    exact absurd hfail (List.not_mem_nil b.name)
  unfold downloadedNames
  exact List.mem_map_of_mem _ (List.mem_filter.mpr
    ⟨List.mem_filter.mpr ⟨hb, hneed⟩, by simp [hdl]⟩)

theorem isSome_of_not_needsDownload (priorFiles : List (String × BlobMetadata))
    (locals : List String) (b : BlobItem)
    (h : needsDownload priorFiles locals b = false) :
    (lookupKey priorFiles b.name).isSome = true := by
  unfold needsDownload at h
  cases hl : lookupKey priorFiles b.name with
  | none => rw [hl] at h; exact absurd h (by simp)
  | some prev => rfl

theorem lookupKey_currentFilesOf_some (listing : List BlobItem) (k : String)
    (v : BlobMetadata) (h : lookupKey (currentFilesOf listing) k = some v) :
    ∃ b ∈ listing, b.name = k := by
  unfold currentFilesOf at h
  rw [map_keyed_eq_filterMap (fun b : BlobItem => b.name) blobRecord] at h
  rcases lookupKey_filterMap_keyed_some (fun b : BlobItem => b.name)
    (fun b => some (blobRecord b)) k v listing h with ⟨b, hb, hk, _⟩
  exact ⟨b, hb, hk⟩

/-- C7 — SyncRecord existence invariant (inductive step over one pass): let
`M c k` mean "key `k` of container `c` was successfully materialized to its
local path in this or some prior pass".  Assume every key recorded in the
prior state was previously materialized, and note every name in
`downloadedNames` is materialized in this pass.  Then every key of every
container entry in a state file persisted by a part_008 pass satisfies
`M`. -/
theorem syncrecord_existence_invariant (inps : List ContainerInput)
    (load : LoadInput) (fb : Option SyncMetadata) (now : Nat)
    (M : String → String → Prop)
    (hprior : ∀ inp ∈ inps, ∀ k,
      (lookupKey (getContainer (loadSyncMetadata load).1 inp.name).files k).isSome = true →
      M inp.name k)
    (hdl : ∀ inp ∈ inps, ∀ n, n ∈ downloadedNames inp.listing
        (getContainer (loadSyncMetadata load).1 inp.name).files inp.locals inp.dlOk →
      M inp.name n)
    (meta : SyncMetadata)
    (hmeta : (downloadBlobsAll inps load fb now true).persisted = some meta)
    (c : String) (cm : ContainerMetadata)
    (hc : lookupKey meta.containers c = some cm)
    (k : String) (hk : (lookupKey cm.files k).isSome = true) :
    M c k := by
  have hmeta' : meta = (downloadBlobsAll inps load fb now true).newMeta := by
    have := downloadBlobsAll_persisted_saved inps load fb now
    rw [this] at hmeta
    exact Option.some_injective _ hmeta.symm
  rw [hmeta', downloadBlobsAll_containers] at hc
  rcases lookupKey_filterMap_keyed_some (fun i : ContainerInput => i.name)
    (fun i => (succOutcome (loadSyncMetadata load).1 i).map
      (fun r => ({ files := r.currentFiles, lastSync := now } : ContainerMetadata)))
    c cm inps hc with ⟨inp, hin, hname, hf⟩
  have hso : ∃ r, succOutcome (loadSyncMetadata load).1 inp = some r
      ∧ cm = { files := r.currentFiles, lastSync := now } := by
    cases hs : succOutcome (loadSyncMetadata load).1 inp with
    | none => rw [hs] at hf; exact absurd hf (by simp)
    | some r =>
      rw [hs, Option.map_some'] at hf
      exact ⟨r, rfl, (Option.some_injective _ hf).symm⟩
  rcases hso with ⟨r, hs, hcm⟩
  have hlist : inp.listOk = true ∧ r = processContainer inp.listing
      (getContainer (loadSyncMetadata load).1 inp.name) inp.locals inp.dlOk
      ∧ r.ok = true := by
    unfold succOutcome containerOutcome at hs
    by_cases hl : inp.listOk = true
    · rw [if_pos hl] at hs
      by_cases hok : (processContainer inp.listing
          (getContainer (loadSyncMetadata load).1 inp.name) inp.locals inp.dlOk).ok = true
      · simp only [hok, if_pos] at hs
        exact ⟨hl, (Option.some_injective _ hs).symm, by rw [(Option.some_injective _ hs).symm]; exact hok⟩
      · simp only [Bool.not_eq_true] at hok
        simp [hok] at hs
    · rw [if_neg hl] at hs
      exact absurd hs (by simp)
  rcases hlist with ⟨_, hr, hok⟩
  have hkfiles : (lookupKey r.currentFiles k).isSome = true := by
    rw [hcm] at hk
    exact hk
  have hcur : r.currentFiles = currentFilesOf inp.listing := by
    rw [hr]
    rfl
  rw [hcur] at hkfiles
  rcases Option.isSome_iff_exists.mp hkfiles with ⟨v, hv⟩
  rcases lookupKey_currentFilesOf_some inp.listing k v hv with ⟨b, hb, hbk⟩
  by_cases hneed : needsDownload
      (getContainer (loadSyncMetadata load).1 inp.name).files inp.locals b = true
  · have hmem := mem_downloadedNames_of_ok inp.listing
      (getContainer (loadSyncMetadata load).1 inp.name) inp.locals inp.dlOk
      (by rw [← hr]; exact hok) b hb hneed
    rw [← hname, ← hbk]
    exact hdl inp hin b.name hmem
  · simp only [Bool.not_eq_true] at hneed
    have hsome := isSome_of_not_needsDownload
      (getContainer (loadSyncMetadata load).1 inp.name).files inp.locals b hneed
    rw [← hname, ← hbk]
    exact hprior inp hin b.name hsome

theorem syncrecord_existence_invariant_witness :
    "videos" = "videos" ∧ "a" = "a" := by
  refine syncrecord_existence_invariant
    [⟨"videos", true, [⟨"a", 1, "h", some 4⟩], [], fun _ => true⟩] .missing none 100
    (fun c k => c = "videos" ∧ k = "a") ?_ ?_
    (downloadBlobsAll [⟨"videos", true, [⟨"a", 1, "h", some 4⟩], [], fun _ => true⟩]
      .missing none 100 true).newMeta rfl
    "videos" ⟨[("a", ⟨1, "h", 4⟩)], 100⟩ rfl "a" rfl
  · intro i hi k hk
    have : lookupKey (getContainer (loadSyncMetadata LoadInput.missing).1 i.name).files k
        = none := rfl
    rw [this] at hk
    exact absurd hk (by simp)
  · intro i hi n hn
    rcases List.mem_cons.mp hi with rfl | hmem
    · have he : downloadedNames [(⟨"a", 1, "h", some 4⟩ : BlobItem)]
          (getContainer (loadSyncMetadata LoadInput.missing).1 "videos").files []
          (fun _ => true) = ["a"] := rfl
      rw [he] at hn
      rcases List.mem_singleton.mp hn with rfl
      exact ⟨rfl, rfl⟩
    · exact absurd hmem (List.not_mem_nil i)

/-! ## C6: crash-safe replace discipline -/

/-- C6 counterexample — the legacy `saveSyncMetadata` of
`backup-service/internal/backup/azure.go`: when the final rename fails, the
temp file holding the fully encoded new state is left on disk (nothing
removes it), and the routine never flushes to durable storage. -/
theorem crash_safe_replace_counterexample :
    (runScript "new" (fun s => s == WriteStep.rename) saveMetadataScriptLegacy
        (some "old") none).1.2 = some (TmpFile.full "new")
    ∧ (runScript "new" (fun s => s == WriteStep.rename) saveMetadataScriptLegacy
        (some "old") none).2 = false
    ∧ scriptFlushes saveMetadataScriptLegacy = false := by
  decide

/-- C6 amended — `downloadBlob` (both copies) and part_008's
`saveSyncMetadata` write to the `.tmp` sibling, flush, and atomically
rename; on every error exit the destination keeps its previous content (or
stays absent) and the temp file is removed, and on success the destination
holds exactly the new content with the temp gone.  The legacy
`saveSyncMetadata` of `backup-service/internal/backup/azure.go` still never
leaves the destination partially written (every error exit preserves it),
but it performs no flush and leaves the temp file behind when the rename
fails. -/
theorem crash_safe_replace_amended (α : Type) (content : α)
    (fails : WriteStep → Bool) (dest : Option α) :
    (scriptFlushes downloadBlobScript = true
      ∧ scriptFlushes saveMetadataScript = true
      ∧ scriptFlushes saveMetadataScriptLegacy = false)
    ∧ ((runScript content fails downloadBlobScript dest none).2 = false →
        (runScript content fails downloadBlobScript dest none).1 = (dest, none))
    ∧ ((runScript content fails downloadBlobScript dest none).2 = true →
        (runScript content fails downloadBlobScript dest none).1 = (some content, none))
    ∧ ((runScript content fails saveMetadataScript dest none).2 = false →
        (runScript content fails saveMetadataScript dest none).1 = (dest, none))
    ∧ ((runScript content fails saveMetadataScript dest none).2 = true →
        (runScript content fails saveMetadataScript dest none).1 = (some content, none))
    ∧ ((runScript content fails saveMetadataScriptLegacy dest none).2 = false →
        (runScript content fails saveMetadataScriptLegacy dest none).1.1 = dest)
    ∧ ((runScript content fails saveMetadataScriptLegacy dest none).2 = true →
        (runScript content fails saveMetadataScriptLegacy dest none).1 = (some content, none)) := by
  cases h1 : fails WriteStep.create <;> cases h2 : fails WriteStep.payload <;>
    cases h3 : fails WriteStep.sync <;> cases h4 : fails WriteStep.close <;>
      cases h5 : fails WriteStep.rename <;>
        simp [runScript, downloadBlobScript, saveMetadataScript, saveMetadataScriptLegacy,
          scriptFlushes, h1, h2, h3, h4, h5]

theorem crash_safe_replace_amended_witness :
    (runScript "new" (fun s => s == WriteStep.rename) saveMetadataScriptLegacy
        (some "old") none).1.1 = some "old"
    ∧ (runScript "new" (fun _ => false) downloadBlobScript (some "old") none).1
        = (some "new", none) := by
  constructor
  · exact (crash_safe_replace_amended String "new" (fun s => s == WriteStep.rename)
      (some "old")).2.2.2.2.2.1 rfl
  · exact (crash_safe_replace_amended String "new" (fun _ => false)
      (some "old")).2.2.1 rfl

/-! ## C8: path confinement -/

/-- C8 counterexample — a key containing traversal segments is not
rejected: for blob name `"../../secret"` the target path
`filepath.Join(backupRootDir/videos, name)` cleans to `secret`, outside the
container root, and the sub-pass downloads it without any error. -/
theorem path_confinement_counterexample :
    segsWithin (containerDirSegs "backups" "videos")
        (blobTargetSegs "backups" "videos" "../../secret") = false
    ∧ blobTargetSegs "backups" "videos" "../../secret" = ["secret"]
    ∧ (processContainer [⟨"../../secret", 5, "", none⟩] ⟨[], 0⟩ []
        (fun _ => true)).failed = []
    ∧ (processContainer [⟨"../../secret", 5, "", none⟩] ⟨[], 0⟩ []
        (fun _ => true)).stats.downloadedFiles = 1 := by
  decide

theorem foldl_cleanStep_plain (l : List String)
    (h : ∀ s ∈ l, s ≠ "" ∧ s ≠ "." ∧ s ≠ "..") :
    ∀ acc, l.foldl cleanStep acc = l.reverse ++ acc := by
  induction l with
  | nil => intro acc; rfl
  | cons x rl ih =>
    intro acc
    have hx := h x (List.mem_cons_self x rl)
    have hrl : ∀ s ∈ rl, s ≠ "" ∧ s ≠ "." ∧ s ≠ ".." :=
      fun s hs => h s (List.mem_cons_of_mem x hs)
    show rl.foldl cleanStep (cleanStep acc x) = (x :: rl).reverse ++ acc
    have hc : cleanStep acc x = x :: acc := by
      simp [cleanStep, hx.1, hx.2.1, hx.2.2]
    rw [hc, ih hrl]
    simp

theorem foldl_cleanStep_no_updirs (l : List String) (h : ∀ s ∈ l, s ≠ "..") :
    ∀ acc, ∃ rest, l.foldl cleanStep acc = rest ++ acc := by
  induction l with
  | nil => intro acc; exact ⟨[], rfl⟩
  | cons x rl ih =>
    intro acc
    have hx := h x (List.mem_cons_self x rl)
    have hrl : ∀ s ∈ rl, s ≠ ".." := fun s hs => h s (List.mem_cons_of_mem x hs)
    show ∃ rest, rl.foldl cleanStep (cleanStep acc x) = rest ++ acc
    by_cases he : x = "" ∨ x = "."
    · have hc : cleanStep acc x = acc := by
        unfold cleanStep
        rw [if_pos he]
      rw [hc]
      exact ih hrl acc
    · have hc : cleanStep acc x = x :: acc := by
        unfold cleanStep
        rw [if_neg he, if_neg hx]
      rw [hc]
      rcases ih hrl (x :: acc) with ⟨rest, hr⟩
      refine ⟨rest ++ [x], ?_⟩
      rw [hr]
      simp

/-- C8 amended — the engine never rejects a key: the target path is just
`filepath.Join` of the container root and the key, which lexically cleans
traversal segments.  For keys free of `..` segments the resulting path
always stays inside the container's local root (given a normalized root);
a key containing `..` can clean to a path outside the root and is still
fetched and written without error, as the counterexample shows. -/
theorem path_confinement_amended (backupRootDir containerName blobName : String)
    (hroot : ∀ s ∈ containerDirSegs backupRootDir containerName,
      s ≠ "" ∧ s ≠ "." ∧ s ≠ "..")
    (hname : ∀ s ∈ splitPath blobName, s ≠ "..") :
    segsWithin (containerDirSegs backupRootDir containerName)
      (blobTargetSegs backupRootDir containerName blobName) = true := by
  unfold blobTargetSegs goJoinSegs cleanSegments segsWithin
  rw [List.foldl_append]
  rw [foldl_cleanStep_plain _ hroot []]
  rcases foldl_cleanStep_no_updirs _ hname
    ((containerDirSegs backupRootDir containerName).reverse ++ []) with ⟨rest, hr⟩
  rw [hr]
  simp only [List.append_nil, List.reverse_append, List.reverse_reverse,
    decide_eq_true_eq]
  exact List.take_left _ _

theorem path_confinement_amended_witness :
    segsWithin (containerDirSegs "backups" "videos")
      (blobTargetSegs "backups" "videos" "sub/movie.mp4") = true :=
  path_confinement_amended "backups" "videos" "sub/movie.mp4" (by decide) (by decide)

/-! ## C9: bounded concurrency -/

theorem holdingCount_nil : holdingCount [] = 0 := rfl

theorem holdingCount_replicate_waiting (n : Nat) :
    holdingCount (List.replicate n Phase.waiting) = 0 := by
  induction n with
  | zero => rfl
  | succ k ih =>
    rw [List.replicate_succ]
    show holdingCount (Phase.waiting :: List.replicate k Phase.waiting) = 0
    simp only [holdingCount, List.filter_cons] at ih ⊢
    simp

theorem holdingCount_set_holding :
    ∀ (ph : List Phase) (i : Nat), ph.get? i = some Phase.waiting →
      holdingCount (ph.set i Phase.holding) = holdingCount ph + 1 := by
  intro ph
  induction ph with
  | nil => intro i hi; simp at hi
  | cons x rest ih =>
    intro i hi
    cases i with
    | zero =>
      have hx : x = Phase.waiting := by simpa using hi
      subst hx
      simp [holdingCount]
    | succ j =>
      have hj : rest.get? j = some Phase.waiting := by simpa using hi
      cases x <;> simpa [holdingCount] using ih j hj

theorem holdingCount_set_done :
    ∀ (ph : List Phase) (i : Nat), ph.get? i = some Phase.holding →
      holdingCount ph = holdingCount (ph.set i Phase.done) + 1 := by
  intro ph
  induction ph with
  | nil => intro i hi; simp at hi
  | cons x rest ih =>
    intro i hi
    cases i with
    | zero =>
      have hx : x = Phase.holding := by simpa using hi
      subst hx
      simp [holdingCount]
    | succ j =>
      have hj : rest.get? j = some Phase.holding := by simpa using hi
      cases x <;> simpa [holdingCount] using ih j hj

theorem semaphore_bound_from (cap : Nat) (s t : List Phase)
    (h : Relation.ReflTransGen (SemStep cap) s t) (hs : holdingCount s ≤ cap) :
    holdingCount t ≤ cap := by
  induction h with
  | refl => exact hs
  | tail hab hbc ih =>
    cases hbc with
    | acquire i hi hcap =>
      rw [holdingCount_set_holding _ i hi]
      omega
    | release i hi =>
      have := holdingCount_set_done _ i hi
      omega

/-- C9 — Bounded concurrency: in every state reachable by the per-container
download semaphore (capacity `MaxConcurrent`) the number of in-flight
fetch-and-materialize operations never exceeds `MaxConcurrent`, and in
every state reachable by the ALL-mode container semaphore the number of
containers being processed simultaneously never exceeds 5 — both gates are
semaphore-style admission control (a blocked send on the full buffered
channel) and are never exceeded. -/
theorem bounded_concurrency (maxConcurrent n m : Nat) (ph ch : List Phase)
    (hb : SemReachable (blobSemaphoreCapacity maxConcurrent) n ph)
    (hc : SemReachable containerSemaphoreCapacity m ch) :
    holdingCount ph ≤ maxConcurrent ∧ holdingCount ch ≤ 5 := by
  constructor
  · exact semaphore_bound_from (blobSemaphoreCapacity maxConcurrent) _ ph hb
      (by rw [holdingCount_replicate_waiting]; exact Nat.zero_le _)
  · exact semaphore_bound_from containerSemaphoreCapacity _ ch hc
      (by rw [holdingCount_replicate_waiting]; exact Nat.zero_le _)

theorem bounded_concurrency_witness :
    holdingCount (List.replicate 3 Phase.waiting) ≤ 2
    ∧ holdingCount (List.replicate 7 Phase.waiting) ≤ 5 :=
  bounded_concurrency 2 3 7 (List.replicate 3 Phase.waiting)
    (List.replicate 7 Phase.waiting) Relation.ReflTransGen.refl
    Relation.ReflTransGen.refl

/-! ## C10: corrupt-state fallback -/

/-- C10 — Corrupt-state fallback: when the sync-state file exists but
cannot be opened or parsed, `loadSyncMetadata` returns the empty state
together with an error; `DownloadBlobs` does not abort (it substitutes the
empty prior state and returns no pass-level error), and against the empty
prior state every listed blob of every container classifies as must-fetch,
so the pass completes as a full re-sync. -/
theorem corrupt_state_fallback (load : LoadInput)
    (hload : load = LoadInput.openFail ∨ load = LoadInput.parseFail)
    (inps : List ContainerInput) (fb : Option SyncMetadata) (now : Nat)
    (saveOk : Bool) :
    loadSyncMetadata load = (emptyMetadata, true)
    ∧ (downloadBlobsAll inps load fb now saveOk).passError = false
    ∧ (∀ inp ∈ inps, ∀ b ∈ inp.listing,
        needsDownload (getContainer (loadSyncMetadata load).1 inp.name).files
          inp.locals b = true) := by
  have hl : loadSyncMetadata load = (emptyMetadata, true) := by
    rcases hload with rfl | rfl <;> rfl
  refine ⟨hl, rfl, ?_⟩
  intro inp _ b _
  rw [hl]
  rfl

theorem corrupt_state_fallback_witness :
    loadSyncMetadata LoadInput.parseFail = (emptyMetadata, true)
    ∧ (downloadBlobsAll [⟨"videos", true, [⟨"a", 1, "h", some 4⟩], [], fun _ => true⟩]
        LoadInput.parseFail none 100 true).passError = false
    ∧ needsDownload (getContainer (loadSyncMetadata LoadInput.parseFail).1 "videos").files
        [] ⟨"a", 1, "h", some 4⟩ = true := by
  have h := corrupt_state_fallback LoadInput.parseFail (Or.inr rfl)
    [⟨"videos", true, [⟨"a", 1, "h", some 4⟩], [], fun _ => true⟩] none 100 true
  exact ⟨h.1, h.2.1, h.2.2 _ (List.mem_cons_self _ _) _ (List.mem_cons_self _ _)⟩

end AzBackup
